import Mathlib

/-!
Shallow embedding of the archive-extraction engine in `src/infra/archive.ts`
(path safety validation, component stripping, resource limits, and the tar/zip
extraction drivers), together with theorems settling the specification claims.

JavaScript strings are modelled as lists of characters so that every path
computation is definitionally executable; the lexical path functions mirror
Node's `path.posix` implementation at the segment level (Node's char-level
`normalizeString` is equivalent to skipping the empty segments produced by
splitting on the separator).
-/

namespace Archive

/-- A JavaScript string. -/
abbrev JSString := List Char

/-- Conversion from a Lean string literal, used to state concrete facts. -/
def str (s : String) : JSString := s.data

/-- JavaScript's `p.split("/")`: `""` splits to `[""]`, and consecutive
separators produce empty segments. -/
def splitSlash : JSString → List JSString
  | [] => [[]]
  | c :: rest =>
    if c = '/' then [] :: splitSlash rest
    else
      match splitSlash rest with
      | s :: ss => (c :: s) :: ss
      | [] => [[c]]

/-- JavaScript's `p.startsWith(pre)`. -/
def startsWith (p pre : JSString) : Bool :=
  pre.isPrefixOf p

/-- JavaScript's `p.endsWith("/")`. -/
def endsWithSlash (p : JSString) : Bool :=
  match p.getLast? with
  | some c => c == '/'
  | none => false

/-- One segment step of Node's posix `normalizeString`: `""` and `"."` are
dropped; `".."` pops the previous segment unless it is itself `".."` or there
is none, in which case it is kept only when `allowAboveRoot`. The accumulator
is the reversed list of output segments. -/
def normStep (allowAboveRoot : Bool) (acc : List JSString) (seg : JSString) :
    List JSString :=
  if seg = [] ∨ seg = ['.'] then acc
  else if seg = ['.', '.'] then
    match acc with
    | [] => if allowAboveRoot then [['.', '.']] else []
    | last :: rest =>
      if last = ['.', '.'] then (if allowAboveRoot then ['.', '.'] :: acc else acc)
      else rest
  else seg :: acc

/-- Node's posix `normalizeString p allowAboveRoot`: resolve `.` and `..`
segments lexically; consecutive separators collapse. -/
def normalizeString (p : JSString) (allowAboveRoot : Bool) : JSString :=
  List.intercalate ['/'] (((splitSlash p).foldl (normStep allowAboveRoot) []).reverse)

/-- Node's `path.posix.normalize`. -/
def posixNormalize (p : JSString) : JSString :=
  if p = [] then ['.']
  else
    let isAbs := startsWith p ['/']
    let trailing := endsWithSlash p
    let core := normalizeString p (!isAbs)
    if core = [] then
      (if isAbs then ['/'] else if trailing then ['.', '/'] else ['.'])
    else
      let core2 := if trailing then core ++ ['/'] else core
      if isAbs then '/' :: core2 else core2

/-- Node's `path.posix.isAbsolute`. -/
def posixIsAbsolute (p : JSString) : Bool :=
  startsWith p ['/']

/-- Node's `path.posix.resolve` with an explicit working directory: scan the
arguments right to left until an absolute one is found (falling back to
`cwd`), join, then normalize. -/
def posixResolve (cwd : JSString) (paths : List JSString) : JSString :=
  let step : JSString → JSString × Bool → JSString × Bool := fun p acc =>
    if acc.2 then acc
    else if p = [] then acc
    else (p ++ '/' :: acc.1, startsWith p ['/'])
  let resolved := (cwd :: paths).foldr step ([], false)
  let core := normalizeString resolved.1 (!resolved.2)
  if resolved.2 then (if core = [] then ['/'] else '/' :: core)
  else (if core = [] then ['.'] else core)

/-- Errors raised by the engine, one constructor per `throw` site. -/
inductive ArchiveError where
  /-- "archive entry uses a drive path" -/
  | drivePath (entry : JSString)
  /-- "archive entry escapes destination" (PathEscape) -/
  | pathEscape (entry : JSString)
  /-- "archive entry is absolute" -/
  | absolutePath (entry : JSString)
  /-- "archive size exceeds limit" -/
  | archiveSizeLimit
  /-- "archive entry count exceeds limit" -/
  | entryCountLimit
  /-- "archive entry extracted size exceeds limit" -/
  | entryBytesLimit
  /-- "archive extracted size exceeds limit" -/
  | extractedBytesLimit
  /-- "tar entry is a link" (DisallowedEntryType) -/
  | disallowedEntryType (entry : JSString)
  /-- "unexpected archive layout" (AmbiguousLayout) -/
  | ambiguousLayout (dirs : List JSString)
  deriving DecidableEq, Repr

instance {ε α : Type} [DecidableEq ε] [DecidableEq α] : DecidableEq (Except ε α) :=
  fun x y =>
    match x, y with
    | .ok a, .ok b =>
      if h : a = b then isTrue (by rw [h]) else isFalse (by intro hc; cases hc; exact h rfl)
    | .ok _, .error _ => isFalse (by intro hc; cases hc)
    | .error _, .ok _ => isFalse (by intro hc; cases hc)
    | .error a, .error b =>
      if h : a = b then isTrue (by rw [h]) else isFalse (by intro hc; cases hc; exact h rfl)

/-- The source's `normalizeArchivePath`: replace every backslash with a
forward slash (`replaceAll` of a single character is a character map). -/
def normalizeArchivePath (raw : JSString) : JSString :=
  raw.map (fun c => if c = '\\' then '/' else c)

/-- The source's `isWindowsDrivePath`: test of `/^[a-zA-Z]:[\\/]/`. -/
def isWindowsDrivePath (p : JSString) : Bool :=
  match p with
  | c1 :: c2 :: c3 :: _ => c1.isAlpha && c2 == ':' && (c3 == '\\' || c3 == '/')
  | _ => false

/-- The source's `validateArchiveEntryPath`. -/
def validateArchiveEntryPath (entryPath : JSString) : Except ArchiveError Unit :=
  if entryPath = [] ∨ entryPath = ['.'] ∨ entryPath = ['.', '/'] then .ok ()
  else if isWindowsDrivePath entryPath then .error (.drivePath entryPath)
  else
    let normalized := posixNormalize (normalizeArchivePath entryPath)
    if normalized = ['.', '.'] ∨ startsWith normalized ['.', '.', '/'] then
      .error (.pathEscape entryPath)
    else if posixIsAbsolute normalized || startsWith normalized ['/', '/'] then
      .error (.absolutePath entryPath)
    else .ok ()

/-- The source's `stripArchivePath`. `stripComponents` is an integer; the
source's `Math.max(0, Math.floor(stripComponents))` is `(max 0 ·).toNat` since
floor is the identity on integers. -/
def stripArchivePath (entryPath : JSString) (stripComponents : Int) :
    Option JSString :=
  let raw := normalizeArchivePath entryPath
  if raw = [] ∨ raw = ['.'] ∨ raw = ['.', '/'] then none
  else
    let parts := (splitSlash raw).filter (fun part => part.length != 0 && part != ['.'])
    let strip := (max 0 stripComponents).toNat
    let stripped :=
      if strip = 0 then List.intercalate ['/'] parts
      else List.intercalate ['/'] (parts.drop strip)
    let result := posixNormalize stripped
    if result = [] ∨ result = ['.'] ∨ result = ['.', '/'] then none
    else some result

/-- The source's `resolveSafeBaseDir` (posix separator). -/
def resolveSafeBaseDir (cwd destDir : JSString) : JSString :=
  let resolved := posixResolve cwd [destDir]
  if endsWithSlash resolved then resolved else resolved ++ ['/']

/-- The source's `resolveCheckedOutPath`. -/
def resolveCheckedOutPath (cwd destDir relPath original : JSString) :
    Except ArchiveError JSString :=
  let safeBase := resolveSafeBaseDir cwd destDir
  let outPath := posixResolve cwd [destDir, relPath]
  if startsWith outPath safeBase then .ok outPath
  else .error (.pathEscape original)

/-- A JavaScript number as the limits code observes it: either non-finite
(NaN/±Infinity) or a finite value, modelled as a rational. -/
inductive JSNumber where
  | nonFinite
  | finite (q : ℚ)
  deriving DecidableEq

/-- The source's `ArchiveExtractLimits`: every field optional, and a
present field is an arbitrary JavaScript number. -/
structure ArchiveExtractLimits where
  maxArchiveBytes : Option JSNumber := none
  maxEntries : Option JSNumber := none
  maxExtractedBytes : Option JSNumber := none
  maxEntryBytes : Option JSNumber := none
  deriving DecidableEq

/-- The resolved (`Required`) limits. -/
structure ResolvedExtractLimits where
  maxArchiveBytes : Int
  maxEntries : Int
  maxExtractedBytes : Int
  maxEntryBytes : Int
  deriving DecidableEq, Repr

/-- The source's `clampLimit`: `undefined` unless the value is a finite
number whose floor is positive. -/
def clampLimit : Option JSNumber → Option Int
  | none => none
  | some .nonFinite => none
  | some (.finite q) => if 0 < ⌊q⌋ then some ⌊q⌋ else none

/-- The source's `resolveExtractLimits`. -/
def resolveExtractLimits (limits : Option ArchiveExtractLimits) : ResolvedExtractLimits :=
  let l := limits.getD {}
  { maxArchiveBytes := (clampLimit l.maxArchiveBytes).getD (256 * 1024 * 1024)
    maxEntries := (clampLimit l.maxEntries).getD 50000
    maxExtractedBytes := (clampLimit l.maxExtractedBytes).getD (512 * 1024 * 1024)
    maxEntryBytes := (clampLimit l.maxEntryBytes).getD (256 * 1024 * 1024) }

/-- A JSZip entry as `extractZip` observes it: its stored name, its directory
flag, its optional `unixPermissions` number (which carries the zip external
attributes, file-type bits included), and the decompressed data stream as a
list of chunk sizes in bytes (the `nodebuffer` fallback is a one-chunk
stream). -/
structure ZipEntry where
  name : JSString
  dir : Bool
  unixPermissions : Option Int := none
  chunks : List Nat := []
  deriving DecidableEq, Repr

/-- Filesystem-visible result of an extraction: files kept on disk (path and
byte count), directories created for directory entries, `chmod` attempts
`(path, mode)`, and the chmods that actually took effect. -/
structure ZipState where
  extractedBytes : Int := 0
  files : List (JSString × Int) := []
  dirs : List JSString := []
  chmodCalls : List (JSString × Int) := []
  modes : List (JSString × Int) := []
  deriving DecidableEq, Repr

/-- The per-chunk budget callback of `extractZip` (`onChunkBytes`, run inside
`createExtractBudgetTransform`): accumulate the entry's running byte count and
the whole-extraction total, failing the instant either strictly exceeds its
limit. Returns the new extraction total on success. -/
def streamEntryChunks (limits : ResolvedExtractLimits) :
    List Nat → Int → Int → Except ArchiveError Int
  | [], _, extracted => .ok extracted
  | c :: rest, entryBytes, extracted =>
    let entryBytes2 := entryBytes + (c : Int)
    if entryBytes2 > limits.maxEntryBytes then .error .entryBytesLimit
    else
      let extracted2 := extracted + (c : Int)
      if extracted2 > limits.maxExtractedBytes then .error .extractedBytesLimit
      else streamEntryChunks limits rest entryBytes2 extracted2

/-- JavaScript's `perm & 0o777`: ToInt32 followed by masking keeps the low
9 bits of the two's-complement representation, i.e. the value mod 512. -/
def maskUnixMode (perm : Int) : Int :=
  perm % 512

/-- One iteration of `extractZip`'s entry loop: validate the raw name, strip,
re-validate, resolve the contained output path, then create the directory or
stream the file under the byte budgets; on a mid-stream failure the partial
file is unlinked (so it never appears in the state) and the error propagates.
A best-effort chmod runs only for a numeric `unixPermissions` whose masked
mode is non-zero, and its failure (per `chmodOk`) is swallowed. -/
def processZipEntry (cwd destDir : JSString) (strip : Int)
    (limits : ResolvedExtractLimits) (chmodOk : JSString → Bool)
    (st : ZipState) (entry : ZipEntry) : Except ArchiveError ZipState :=
  match validateArchiveEntryPath entry.name with
  | .error e => .error e
  | .ok _ =>
    match stripArchivePath entry.name strip with
    | none => .ok st
    | some relPath =>
      match validateArchiveEntryPath relPath with
      | .error e => .error e
      | .ok _ =>
        match resolveCheckedOutPath cwd destDir relPath entry.name with
        | .error e => .error e
        | .ok outPath =>
          if entry.dir then
            .ok { st with dirs := st.dirs ++ [outPath] }
          else
            match streamEntryChunks limits entry.chunks 0 st.extractedBytes with
            | .error e => .error e
            | .ok extracted =>
              let written : Int := ((entry.chunks.foldl (· + ·) 0 : Nat) : Int)
              let st2 := { st with
                extractedBytes := extracted
                files := st.files ++ [(outPath, written)] }
              match entry.unixPermissions with
              | none => .ok st2
              | some perm =>
                let mode := maskUnixMode perm
                if mode = 0 then .ok st2
                else
                  let st3 := { st2 with chmodCalls := st2.chmodCalls ++ [(outPath, mode)] }
                  if chmodOk outPath then
                    .ok { st3 with modes := st3.modes ++ [(outPath, mode)] }
                  else .ok st3

/-- Run the entry loop sequentially, stopping at the first error; files
already materialized by earlier entries remain on disk, as in the source. -/
def runZipEntries (cwd destDir : JSString) (strip : Int)
    (limits : ResolvedExtractLimits) (chmodOk : JSString → Bool) :
    List ZipEntry → ZipState → ZipState × Option ArchiveError
  | [], st => (st, none)
  | e :: rest, st =>
    match processZipEntry cwd destDir strip limits chmodOk st e with
    | .error err => (st, some err)
    | .ok st2 => runZipEntries cwd destDir strip limits chmodOk rest st2

/-- Inputs of `extractZip` beyond the entry list: the working directory for
path resolution, the destination, `stripComponents`, the raw limits, the
archive's on-disk size (`stat.size`), and the chmod success oracle. -/
structure ZipConfig where
  cwd : JSString
  destDir : JSString
  stripComponents : Int := 0
  limits : Option ArchiveExtractLimits := none
  archiveSize : Int := 0
  chmodOk : JSString → Bool := fun _ => true

/-- The source's `extractZip`: archive-size check, entry-count check
against the full central-directory entry list, then the sequential entry
loop. -/
def extractZip (cfg : ZipConfig) (entries : List ZipEntry) :
    ZipState × Option ArchiveError :=
  let limits := resolveExtractLimits cfg.limits
  let strip := max 0 cfg.stripComponents
  if cfg.archiveSize > limits.maxArchiveBytes then ({}, some .archiveSizeLimit)
  else if (entries.length : Int) > limits.maxEntries then ({}, some .entryCountLimit)
  else runZipEntries cfg.cwd cfg.destDir strip limits cfg.chmodOk entries {}

/-- A tar entry as the `onReadEntry` callback observes it: its path, its
declared type as node-tar's type string ("File", "Directory", "SymbolicLink",
"Link", ...), and its declared size, an arbitrary JavaScript value coerced by
the source to a non-negative integer (0 unless a finite number). -/
structure TarEntry where
  path : JSString
  entryType : JSString := str "File"
  size : Option JSNumber := none
  deriving DecidableEq

/-- The source's coercion of a tar entry's declared size:
`max 0 (floor size)` for a finite number, else 0. -/
def tarEntrySize (e : TarEntry) : Int :=
  match e.size with
  | some (.finite q) => max 0 ⌊q⌋
  | _ => 0

/-- The entry types rejected by the tar driver. -/
def disallowedTarEntryTypes : List JSString :=
  [str "SymbolicLink", str "Link", str "BlockDevice", str "CharacterDevice",
   str "FIFO", str "Socket"]

/-- Running counters of the tar driver plus the entries materialized so far
(node-tar writes the entry at the checked destination path after the callback
returns without aborting; an aborted entry is never written). -/
structure TarState where
  entryCount : Int := 0
  extractedBytes : Int := 0
  written : List JSString := []
  deriving DecidableEq, Repr

/-- The `onReadEntry` callback of the tar branch of `extractArchive`:
validate, strip (skip when nothing remains), re-validate, containment-check,
reject disallowed types, then increment-and-compare the entry count and the
byte budgets; any error aborts the parse. -/
def tarProcessEntry (cwd destDir : JSString) (strip : Int)
    (limits : ResolvedExtractLimits) (st : TarState) (entry : TarEntry) :
    Except ArchiveError TarState :=
  match validateArchiveEntryPath entry.path with
  | .error e => .error e
  | .ok _ =>
    match stripArchivePath entry.path strip with
    | none => .ok st
    | some relPath =>
      match validateArchiveEntryPath relPath with
      | .error e => .error e
      | .ok _ =>
        match resolveCheckedOutPath cwd destDir relPath entry.path with
        | .error e => .error e
        | .ok outPath =>
          if entry.entryType ∈ disallowedTarEntryTypes then
            .error (.disallowedEntryType entry.path)
          else
            let entryCount := st.entryCount + 1
            if entryCount > limits.maxEntries then .error .entryCountLimit
            else
              let esize := tarEntrySize entry
              if esize > limits.maxEntryBytes then .error .entryBytesLimit
              else
                let extracted := st.extractedBytes + esize
                if extracted > limits.maxExtractedBytes then .error .extractedBytesLimit
                else
                  .ok { entryCount := entryCount, extractedBytes := extracted,
                        written := st.written ++ [outPath] }

/-- Stream the tar entries through the callback, aborting at the first error;
entries materialized before the abort remain on disk. -/
def runTarEntries (cwd destDir : JSString) (strip : Int)
    (limits : ResolvedExtractLimits) :
    List TarEntry → TarState → TarState × Option ArchiveError
  | [], st => (st, none)
  | e :: rest, st =>
    match tarProcessEntry cwd destDir strip limits st e with
    | .error err => (st, some err)
    | .ok st2 => runTarEntries cwd destDir strip limits rest st2

/-- The tar branch of `extractArchive`: clamp `stripComponents`, resolve the
limits, and run the per-entry pipeline over the archive's entry stream. -/
def extractTar (cwd destDir : JSString) (stripComponents : Int)
    (limits : Option ArchiveExtractLimits) (entries : List TarEntry) :
    TarState × Option ArchiveError :=
  let strip := max 0 stripComponents
  let resolved := resolveExtractLimits limits
  runTarEntries cwd destDir strip resolved entries {}

/-- What `resolvePackedRootDir` observes of the extraction directory: whether
`extractDir/package` stats as a directory, and the names of the top-level
subdirectories. -/
structure ExtractDirListing where
  hasPackageDir : Bool
  topLevelDirs : List JSString
  deriving DecidableEq

/-- The source's `resolvePackedRootDir` (`path.join` on these
already-clean inputs appends a separator and the name). -/
def resolvePackedRootDir (extractDir : JSString) (listing : ExtractDirListing) :
    Except ArchiveError JSString :=
  if listing.hasPackageDir then .ok (extractDir ++ str "/package")
  else
    let dirs := listing.topLevelDirs
    if dirs.length ≠ 1 then .error (.ambiguousLayout dirs)
    else
      match dirs with
      | [onlyDir] => .ok (extractDir ++ ['/'] ++ onlyDir)
      | _ => .error (.ambiguousLayout dirs)

/-- Spec-side restatement of the Component Stripper contract (for the
refinement claim C5), following the spec's words: split the
backslash-normalized path on `/`, discard empty and `.` segments, drop the
first `n` segments, rejoin with `/`, POSIX-normalize, and return `None`
exactly when nothing remains. -/
def stripComponentsSpec (p : JSString) (n : Nat) : Option JSString :=
  let parts := (splitSlash (normalizeArchivePath p)).filter
    (fun part => part != [] && part != ['.'])
  let result := posixNormalize (List.intercalate ['/'] (parts.drop n))
  if result = [] ∨ result = ['.'] ∨ result = ['.', '/'] then none
  else some result

/-- Resolution contract for one limit field: the output is positive, equals
the floor of a finite input whose floor is positive, and equals the default
for an absent, non-finite, or non-positive input. -/
def limitFieldSpec (inp : Option JSNumber) (dflt out : Int) : Prop :=
  0 < out ∧
  (∀ q : ℚ, inp = some (JSNumber.finite q) →
    ((0 < ⌊q⌋ → out = ⌊q⌋) ∧ (⌊q⌋ ≤ 0 → out = dflt))) ∧
  (inp = none ∨ inp = some JSNumber.nonFinite → out = dflt)

/-- Forget the applied-chmod record of a state; two runs that differ only in
which chmods succeeded have the same erasure. -/
def eraseModes (st : ZipState) : ZipState :=
  { st with modes := [] }

/-- Whether a zip entry's stored unix attributes declare it a symbolic link:
the file-type nibble of `unixPermissions` is `0o12` (S_IFLNK). -/
def zipEntryDeclaredSymlink (e : ZipEntry) : Bool :=
  !e.dir &&
    (match e.unixPermissions with
     | some p => (p / 4096) % 16 == 10
     | none => false)

/-- C1: `validateArchiveEntryPath` accepts the empty string, "." and "./"
trivially; it rejects every path with a Windows drive prefix unconditionally;
otherwise it backslash-normalizes and POSIX-normalizes the path and fails
exactly when the normalized result equals ".." or starts with "../", "/" or
"//"; the ".."-escapes fail with the PathEscape error; all other paths are
accepted. -/
theorem C1_validate_entry_path (p : JSString) :
    (validateArchiveEntryPath p = .ok () ↔
      ((p = [] ∨ p = ['.'] ∨ p = ['.', '/']) ∨
        (isWindowsDrivePath p = false ∧
          ¬(posixNormalize (normalizeArchivePath p) = ['.', '.'] ∨
            startsWith (posixNormalize (normalizeArchivePath p)) ['.', '.', '/'] = true ∨
            startsWith (posixNormalize (normalizeArchivePath p)) ['/'] = true ∨
            startsWith (posixNormalize (normalizeArchivePath p)) ['/', '/'] = true)))) ∧
    (¬(p = [] ∨ p = ['.'] ∨ p = ['.', '/']) → isWindowsDrivePath p = true →
      validateArchiveEntryPath p = .error (.drivePath p)) ∧
    (¬(p = [] ∨ p = ['.'] ∨ p = ['.', '/']) → isWindowsDrivePath p = false →
      (posixNormalize (normalizeArchivePath p) = ['.', '.'] ∨
        startsWith (posixNormalize (normalizeArchivePath p)) ['.', '.', '/'] = true) →
      validateArchiveEntryPath p = .error (.pathEscape p)) := by
  simp only [validateArchiveEntryPath, posixIsAbsolute]
  split_ifs with h1 h2 h3 h4 <;> simp_all
  intro h5 h6
  rcases h3 with h | h
  · exact absurd h h5
  · simp [h] at h6

/-- Witness for C1 at the concrete escaping path "a/../../b". -/
theorem C1_witness :
    validateArchiveEntryPath (str "a/../../b") = .error (.pathEscape (str "a/../../b")) :=
  (C1_validate_entry_path (str "a/../../b")).2.2 (by decide) (by decide) (by decide)

/-- C4: stripping operates on the raw pre-normalization segments, and both
extractors re-run the validator on the stripped result: "a/../b" passes
validation, strips (with one component dropped) to "../b", which fails
validation, and both the zip and the tar extractor reject such an entry with
PathEscape, writing nothing. -/
theorem C4_strip_reruns_validator :
    validateArchiveEntryPath (str "a/../b") = .ok () ∧
    stripArchivePath (str "a/../b") 1 = some (str "../b") ∧
    validateArchiveEntryPath (str "../b") = .error (.pathEscape (str "../b")) ∧
    extractZip { cwd := str "/", destDir := str "/dest", stripComponents := 1 }
      [{ name := str "a/../b", dir := false, chunks := [1] }] =
      ({}, some (.pathEscape (str "../b"))) ∧
    extractTar (str "/") (str "/dest") 1 none [{ path := str "a/../b" }] =
      ({}, some (.pathEscape (str "../b"))) :=
  ⟨by decide, by decide, by decide, by decide, by decide⟩

/-- C5: `stripArchivePath p n` equals the spec's contract
`stripComponentsSpec` (split the backslash-normalized path on "/", discard
empty and "." segments, drop the first n, rejoin, POSIX-normalize, and return
none exactly when nothing remains); in particular "pkg/src/index.js" strips
to "src/index.js" with n = 1 and to none with n = 3. -/
theorem C5_strip_components (p : JSString) (n : Nat) :
    stripArchivePath p (n : Int) = stripComponentsSpec p n ∧
    stripArchivePath (str "pkg/src/index.js") 1 = some (str "src/index.js") ∧
    stripArchivePath (str "pkg/src/index.js") 3 = none := by
  refine ⟨?_, by decide, by decide⟩
  have htn : (max 0 (n : Int)).toNat = n := by omega
  have hfil : ∀ l : List JSString,
      l.filter (fun part => part.length != 0 && part != ['.']) =
      l.filter (fun part => part != [] && part != ['.']) := by
    intro l
    apply List.filter_congr
    intro x _
    cases x <;> simp
  by_cases hr : normalizeArchivePath p = [] ∨ normalizeArchivePath p = ['.'] ∨
      normalizeArchivePath p = ['.', '/']
  · have hL : stripArchivePath p (n : Int) = none := by
      simp only [stripArchivePath]
      rw [if_pos hr]
    have hparts : (splitSlash (normalizeArchivePath p)).filter
        (fun part => part != [] && part != ['.']) = [] := by
      rcases hr with h | h | h <;> rw [h] <;> decide
    have hR : stripComponentsSpec p n = none := by
      simp only [stripComponentsSpec, hparts, List.drop_nil]
      decide
    rw [hL, hR]
  · simp only [stripArchivePath, stripComponentsSpec, if_neg hr, hfil, htn]
    by_cases hn : n = 0
    · subst hn
      simp
    · rw [if_neg hn]

/-- C9: `resolvePackedRootDir` returns the top-level "package" directory when
it exists, otherwise the unique top-level subdirectory, and errors with
AmbiguousLayout exactly when, absent a "package" directory, the number of
top-level subdirectories differs from one. -/
theorem C9_resolve_packed_root (extractDir : JSString) (listing : ExtractDirListing) :
    (listing.hasPackageDir = true →
      resolvePackedRootDir extractDir listing = .ok (extractDir ++ str "/package")) ∧
    (listing.hasPackageDir = false → ∀ d, listing.topLevelDirs = [d] →
      resolvePackedRootDir extractDir listing = .ok (extractDir ++ ['/'] ++ d)) ∧
    (listing.hasPackageDir = false → listing.topLevelDirs.length ≠ 1 →
      resolvePackedRootDir extractDir listing = .error (.ambiguousLayout listing.topLevelDirs)) ∧
    ((∃ e, resolvePackedRootDir extractDir listing = .error e) ↔
      listing.hasPackageDir = false ∧ listing.topLevelDirs.length ≠ 1) := by
  obtain ⟨hp, dirs⟩ := listing
  cases hp <;> rcases dirs with _ | ⟨d, _ | ⟨d2, rest⟩⟩ <;>
    simp [resolvePackedRootDir]

/-- Witness for C9: two top-level directories and no "package" directory is
ambiguous, and a "package" directory is returned. -/
theorem C9_witness :
    resolvePackedRootDir (str "/x") { hasPackageDir := false, topLevelDirs := [str "a", str "b"] } =
      .error (.ambiguousLayout [str "a", str "b"]) ∧
    resolvePackedRootDir (str "/x") { hasPackageDir := true, topLevelDirs := [str "package"] } =
      .ok (str "/x" ++ str "/package") :=
  ⟨(C9_resolve_packed_root (str "/x") _).2.2.1 (by decide) (by decide),
   (C9_resolve_packed_root (str "/x") _).1 (by decide)⟩

/-- C6: with maxEntryBytes resolved to 1000, the per-chunk budget callback
errors with the per-entry LimitExceeded error the instant the entry's running
byte count exceeds 1000, independent of any chunks that would follow; a
single 1001-byte entry (one chunk or split 1000+1) fails the whole extraction
with that error and leaves no file in the destination, while a 1000-byte
entry succeeds. -/
theorem C6_entry_byte_limit :
    (∀ rest : List Nat,
      streamEntryChunks (resolveExtractLimits (some { maxEntryBytes := some (.finite 1000) }))
        (1000 :: 1 :: rest) 0 0 = .error .entryBytesLimit) ∧
    extractZip { cwd := str "/", destDir := str "/dest", limits := some { maxEntryBytes := some (.finite 1000) } }
      [{ name := str "big", dir := false, chunks := [1001] }] =
      ({}, some .entryBytesLimit) ∧
    extractZip { cwd := str "/", destDir := str "/dest", limits := some { maxEntryBytes := some (.finite 1000) } }
      [{ name := str "big", dir := false, chunks := [1000, 1] }] =
      ({}, some .entryBytesLimit) ∧
    extractZip { cwd := str "/", destDir := str "/dest", limits := some { maxEntryBytes := some (.finite 1000) } }
      [{ name := str "big", dir := false, chunks := [1000] }] =
      ({ extractedBytes := 1000, files := [(str "/dest/big", 1000)], dirs := [],
         chmodCalls := [], modes := [] }, none) := by
  refine ⟨?_, by decide, by decide, by decide⟩
  intro rest
  have hlim : resolveExtractLimits (some { maxEntryBytes := some (.finite 1000) }) =
      { maxArchiveBytes := 268435456, maxEntries := 50000,
        maxExtractedBytes := 536870912, maxEntryBytes := 1000 } := by decide
  rw [hlim]
  have h1 : streamEntryChunks
      { maxArchiveBytes := 268435456, maxEntries := 50000,
        maxExtractedBytes := 536870912, maxEntryBytes := 1000 }
      (1000 :: 1 :: rest) 0 0 = streamEntryChunks
      { maxArchiveBytes := 268435456, maxEntries := 50000,
        maxExtractedBytes := 536870912, maxEntryBytes := 1000 } (1 :: rest) 1000 1000 := by
    simp [streamEntryChunks]
  rw [h1]
  simp [streamEntryChunks]

/-- C7: with maxEntries = 3, extracting a 4-entry archive aborts the whole
operation with the entry-count LimitExceeded error before any bytes of the
4th entry are written: the tar driver materializes exactly the first 3
entries and stops at the 4th via its increment-and-compare check (a passing
entry increments the count by one, and a count exceeding the limit stops all
further processing immediately), and the zip driver compares the total entry
count up front and writes nothing at all. -/
theorem C7_entry_count_limit :
    extractTar (str "/") (str "/dest") 0 (some { maxEntries := some (.finite 3) })
      [{ path := str "a" }, { path := str "b" }, { path := str "c" }, { path := str "d" }] =
      ({ entryCount := 3, extractedBytes := 0,
         written := [str "/dest/a", str "/dest/b", str "/dest/c"] }, some .entryCountLimit) ∧
    extractZip { cwd := str "/", destDir := str "/dest", limits := some { maxEntries := some (.finite 3) } }
      [{ name := str "a", dir := false, chunks := [1] },
       { name := str "b", dir := false, chunks := [1] },
       { name := str "c", dir := false, chunks := [1] },
       { name := str "d", dir := false, chunks := [1] }] =
      ({}, some .entryCountLimit) ∧
    (∀ cwd destDir strip limits st e st2,
      tarProcessEntry cwd destDir strip limits st e = .ok st2 →
      st2.entryCount = st.entryCount + 1 ∨
        (st2 = st ∧ stripArchivePath e.path strip = none)) ∧
    (∀ cwd destDir strip limits st e relPath outPath rest,
      validateArchiveEntryPath e.path = .ok () →
      stripArchivePath e.path strip = some relPath →
      validateArchiveEntryPath relPath = .ok () →
      resolveCheckedOutPath cwd destDir relPath e.path = .ok outPath →
      e.entryType ∉ disallowedTarEntryTypes →
      st.entryCount + 1 > limits.maxEntries →
      runTarEntries cwd destDir strip limits (e :: rest) st = (st, some .entryCountLimit)) ∧
    (∀ cfg entries, cfg.archiveSize ≤ (resolveExtractLimits cfg.limits).maxArchiveBytes →
      (entries.length : Int) > (resolveExtractLimits cfg.limits).maxEntries →
      extractZip cfg entries = ({}, some .entryCountLimit)) := by
  refine ⟨by decide, by decide, ?_, ?_, ?_⟩
  · intro cwd destDir strip limits st e st2 h
    unfold tarProcessEntry at h
    cases hv : validateArchiveEntryPath e.path with
    | error err => simp [hv] at h
    | ok u =>
      cases hs : stripArchivePath e.path strip with
      | none =>
        simp only [hv, hs] at h
        injection h with h2
        exact Or.inr ⟨h2.symm, rfl⟩
      | some relPath =>
        left
        cases hv2 : validateArchiveEntryPath relPath with
        | error err => simp [hv, hs, hv2] at h
        | ok u2 =>
          cases hro : resolveCheckedOutPath cwd destDir relPath e.path with
          | error err => simp [hv, hs, hv2, hro] at h
          | ok outPath =>
            simp only [hv, hs, hv2, hro] at h
            split_ifs at h <;>
              first
                | exact Except.noConfusion h
                | (injection h with h2; subst h2; rfl)
  · intro cwd destDir strip limits st e relPath outPath rest hv hs hv2 hro htype hcount
    have hp : tarProcessEntry cwd destDir strip limits st e = .error .entryCountLimit := by
      unfold tarProcessEntry
      simp only [hv, hs, hv2, hro, if_neg htype, if_pos hcount]
    unfold runTarEntries
    rw [hp]
  · intro cfg entries hsize hcount
    unfold extractZip
    rw [if_neg (by omega), if_pos hcount]

/-- Witness for C7's general zip conjunct at a concrete 4-entry archive with
maxEntries = 3. -/
theorem C7_witness :
    extractZip { cwd := str "/", destDir := str "/dest", limits := some { maxEntries := some (.finite 3) } }
      [{ name := str "w", dir := false }, { name := str "x", dir := false },
       { name := str "y", dir := false }, { name := str "z", dir := false }] =
      ({}, some .entryCountLimit) :=
  C7_entry_count_limit.2.2.2.2 _ _ (by decide) (by decide)

/-- Counterexample to C8 as stated: 1/2 is a finite number strictly greater
than 0, so the claim says maxEntries resolves to its floor 0, but the code
resolves it to the default 50000. -/
theorem C8_counterexample :
    (0 : ℚ) < 1 / 2 ∧ ⌊(1 / 2 : ℚ)⌋ = 0 ∧
    (resolveExtractLimits (some { maxEntries := some (.finite (1 / 2)) })).maxEntries = 50000 ∧
    (50000 : Int) ≠ ⌊(1 / 2 : ℚ)⌋ := by
  refine ⟨by norm_num, by norm_num, ?_, by norm_num⟩
  simp only [resolveExtractLimits, clampLimit]
  norm_num

/-- Helper: the clamp-with-default used for every limit field satisfies the
per-field resolution contract. -/
theorem limitFieldSpec_getD (inp : Option JSNumber) (dflt : Int) (hd : 0 < dflt) :
    limitFieldSpec inp dflt ((clampLimit inp).getD dflt) := by
  refine ⟨?_, ?_, ?_⟩
  · rcases inp with _ | (_ | q)
    · simpa [clampLimit] using hd
    · simpa [clampLimit] using hd
    · by_cases hq : 0 < ⌊q⌋ <;> simp [clampLimit, hq, hd]
  · rintro q hq2
    rcases inp with _ | (_ | q2) <;> simp_all
    subst hq2
    constructor
    · intro hq
      simp [clampLimit, hq]
    · intro hq
      simp [clampLimit, show ¬(0 < ⌊q2⌋) by omega]
  · rintro (rfl | rfl) <;> simp [clampLimit]

/-- C8 (amended): each limit field resolves to the floor of its input when the
input is a finite number whose floor is positive (equivalently, the input is
at least 1), and otherwise (unset, non-finite, or with non-positive floor,
which includes zero, negatives, and positive values below 1) falls back to
the defaults 256 MiB, 50000, 512 MiB and 256 MiB; every resolved limit is
positive, so no input can disable a check. -/
theorem C8_amended (l : ArchiveExtractLimits) :
    limitFieldSpec l.maxArchiveBytes (256 * 1024 * 1024)
      (resolveExtractLimits (some l)).maxArchiveBytes ∧
    limitFieldSpec l.maxEntries 50000 (resolveExtractLimits (some l)).maxEntries ∧
    limitFieldSpec l.maxExtractedBytes (512 * 1024 * 1024)
      (resolveExtractLimits (some l)).maxExtractedBytes ∧
    limitFieldSpec l.maxEntryBytes (256 * 1024 * 1024)
      (resolveExtractLimits (some l)).maxEntryBytes ∧
    resolveExtractLimits none = resolveExtractLimits (some {}) :=
  ⟨limitFieldSpec_getD _ _ (by norm_num), limitFieldSpec_getD _ _ (by norm_num),
   limitFieldSpec_getD _ _ (by norm_num), limitFieldSpec_getD _ _ (by norm_num), rfl⟩

/-- Witness for C8 (amended) at the concrete finite input 7. -/
theorem C8_amended_witness :
    (resolveExtractLimits (some { maxEntries := some (.finite (7 : ℚ)) })).maxEntries = 7 := by
  have h := ((C8_amended { maxEntries := some (.finite (7 : ℚ)) }).2.1).2.1 7 rfl
  rw [h.1 (by norm_num)]
  norm_num

/-- Helper: a successful containment check returns exactly the resolved join
of destDir and the relative path, and that path extends the safe base. -/
theorem resolveCheckedOutPath_ok (cwd destDir relPath original outPath : JSString)
    (h : resolveCheckedOutPath cwd destDir relPath original = .ok outPath) :
    outPath = posixResolve cwd [destDir, relPath] ∧
    startsWith outPath (resolveSafeBaseDir cwd destDir) = true := by
  simp only [resolveCheckedOutPath] at h
  split_ifs at h with hsw
  injection h with h2
  subst h2
  exact ⟨rfl, hsw⟩

/-- Helper: processing one zip entry preserves the invariant that every
materialized file and directory path extends the safe base of destDir. -/
theorem processZipEntry_startsWith (cwd destDir : JSString) (strip : Int)
    (limits : ResolvedExtractLimits) (chmodOk : JSString → Bool)
    (st : ZipState) (e : ZipEntry) (st2 : ZipState)
    (h : processZipEntry cwd destDir strip limits chmodOk st e = .ok st2)
    (hf : st.files.all (fun f => startsWith f.1 (resolveSafeBaseDir cwd destDir)) = true)
    (hd : st.dirs.all (fun d => startsWith d (resolveSafeBaseDir cwd destDir)) = true) :
    st2.files.all (fun f => startsWith f.1 (resolveSafeBaseDir cwd destDir)) = true ∧
    st2.dirs.all (fun d => startsWith d (resolveSafeBaseDir cwd destDir)) = true := by
  unfold processZipEntry at h
  cases hv : validateArchiveEntryPath e.name with
  | error err => simp only [hv] at h; exact Except.noConfusion h
  | ok u =>
    simp only [hv] at h
    cases hs : stripArchivePath e.name strip with
    | none =>
      simp only [hs] at h
      injection h with h2
      subst h2
      exact ⟨hf, hd⟩
    | some relPath =>
      simp only [hs] at h
      cases hv2 : validateArchiveEntryPath relPath with
      | error err => simp only [hv2] at h; exact Except.noConfusion h
      | ok u2 =>
        simp only [hv2] at h
        cases hro : resolveCheckedOutPath cwd destDir relPath e.name with
        | error err => simp only [hro] at h; exact Except.noConfusion h
        | ok outPath =>
          simp only [hro] at h
          have hsw := (resolveCheckedOutPath_ok cwd destDir relPath e.name outPath hro).2
          by_cases hdir : e.dir = true
          · rw [if_pos hdir] at h
            injection h with h2
            subst h2
            refine ⟨hf, ?_⟩
            simp [List.all_append, hd, hsw]
          · rw [if_neg hdir] at h
            cases hst : streamEntryChunks limits e.chunks 0 st.extractedBytes with
            | error err => simp only [hst] at h; exact Except.noConfusion h
            | ok extracted =>
              simp only [hst] at h
              cases hperm : e.unixPermissions with
              | none =>
                simp only [hperm] at h
                injection h with h2
                subst h2
                refine ⟨?_, hd⟩
                simp [List.all_append, hf, hsw]
              | some p =>
                simp only [hperm] at h
                split_ifs at h <;>
                  (injection h with h2; subst h2;
                   exact ⟨by simp [List.all_append, hf, hsw], hd⟩)

/-- Helper: the zip entry loop preserves the containment invariant. -/
theorem runZipEntries_startsWith (cwd destDir : JSString) (strip : Int)
    (limits : ResolvedExtractLimits) (chmodOk : JSString → Bool) :
    ∀ (entries : List ZipEntry) (st : ZipState),
      st.files.all (fun f => startsWith f.1 (resolveSafeBaseDir cwd destDir)) = true →
      st.dirs.all (fun d => startsWith d (resolveSafeBaseDir cwd destDir)) = true →
      (runZipEntries cwd destDir strip limits chmodOk entries st).1.files.all
        (fun f => startsWith f.1 (resolveSafeBaseDir cwd destDir)) = true ∧
      (runZipEntries cwd destDir strip limits chmodOk entries st).1.dirs.all
        (fun d => startsWith d (resolveSafeBaseDir cwd destDir)) = true
  | [], st, hf, hd => ⟨hf, hd⟩
  | e :: rest, st, hf, hd => by
    unfold runZipEntries
    cases hp : processZipEntry cwd destDir strip limits chmodOk st e with
    | error err =>
      exact ⟨hf, hd⟩
    | ok st2 =>
      obtain ⟨hf2, hd2⟩ :=
        processZipEntry_startsWith cwd destDir strip limits chmodOk st e st2 hp hf hd
      exact runZipEntries_startsWith cwd destDir strip limits chmodOk rest st2 hf2 hd2

/-- Helper: the tar callback preserves the containment invariant for
materialized entries. -/
theorem tarProcessEntry_startsWith (cwd destDir : JSString) (strip : Int)
    (limits : ResolvedExtractLimits) (st : TarState) (e : TarEntry) (st2 : TarState)
    (h : tarProcessEntry cwd destDir strip limits st e = .ok st2)
    (hw : st.written.all (fun w => startsWith w (resolveSafeBaseDir cwd destDir)) = true) :
    st2.written.all (fun w => startsWith w (resolveSafeBaseDir cwd destDir)) = true := by
  unfold tarProcessEntry at h
  cases hv : validateArchiveEntryPath e.path with
  | error err => simp only [hv] at h; exact Except.noConfusion h
  | ok u =>
    simp only [hv] at h
    cases hs : stripArchivePath e.path strip with
    | none =>
      simp only [hs] at h
      injection h with h2
      subst h2
      exact hw
    | some relPath =>
      simp only [hs] at h
      cases hv2 : validateArchiveEntryPath relPath with
      | error err => simp only [hv2] at h; exact Except.noConfusion h
      | ok u2 =>
        simp only [hv2] at h
        cases hro : resolveCheckedOutPath cwd destDir relPath e.path with
        | error err => simp only [hro] at h; exact Except.noConfusion h
        | ok outPath =>
          simp only [hro] at h
          have hsw := (resolveCheckedOutPath_ok cwd destDir relPath e.path outPath hro).2
          split_ifs at h <;> first
            | exact Except.noConfusion h
            | (injection h with h2; subst h2; simp [List.all_append, hw, hsw])

/-- Helper: the tar entry loop preserves the containment invariant. -/
theorem runTarEntries_startsWith (cwd destDir : JSString) (strip : Int)
    (limits : ResolvedExtractLimits) :
    ∀ (entries : List TarEntry) (st : TarState),
      st.written.all (fun w => startsWith w (resolveSafeBaseDir cwd destDir)) = true →
      (runTarEntries cwd destDir strip limits entries st).1.written.all
        (fun w => startsWith w (resolveSafeBaseDir cwd destDir)) = true
  | [], st, hw => hw
  | e :: rest, st, hw => by
    unfold runTarEntries
    cases hp : tarProcessEntry cwd destDir strip limits st e with
    | error err => exact hw
    | ok st2 =>
      exact runTarEntries_startsWith cwd destDir strip limits rest st2
        (tarProcessEntry_startsWith cwd destDir strip limits st e st2 hp hw)

/-- C2: the candidate output path of every materialized entry is the
resolution of destDir joined with the stripped relative path, and the
operation fails with PathEscape unless that resolved path extends the safe
base (the resolved destDir followed by the path separator); the check is
recomputed from destDir inside `resolveCheckedOutPath` for every entry, and
consequently every file and directory either extractor materializes, in every
extraction and even in failed ones, lies under destDir's safe base. -/
theorem C2_path_containment :
    (∀ cwd destDir relPath original outPath,
      resolveCheckedOutPath cwd destDir relPath original = .ok outPath →
      outPath = posixResolve cwd [destDir, relPath] ∧
      startsWith outPath (resolveSafeBaseDir cwd destDir) = true) ∧
    (∀ cwd destDir relPath original,
      startsWith (posixResolve cwd [destDir, relPath]) (resolveSafeBaseDir cwd destDir) = false →
      resolveCheckedOutPath cwd destDir relPath original = .error (.pathEscape original)) ∧
    (∀ cfg entries,
      (extractZip cfg entries).1.files.all
        (fun f => startsWith f.1 (resolveSafeBaseDir cfg.cwd cfg.destDir)) = true ∧
      (extractZip cfg entries).1.dirs.all
        (fun d => startsWith d (resolveSafeBaseDir cfg.cwd cfg.destDir)) = true) ∧
    (∀ cwd destDir strip limits entries,
      (extractTar cwd destDir strip limits entries).1.written.all
        (fun w => startsWith w (resolveSafeBaseDir cwd destDir)) = true) := by
  refine ⟨resolveCheckedOutPath_ok, ?_, ?_, ?_⟩
  · intro cwd destDir relPath original hsw
    simp only [resolveCheckedOutPath]
    rw [if_neg (by simp [hsw])]
  · intro cfg entries
    simp only [extractZip]
    split_ifs
    · exact ⟨rfl, rfl⟩
    · exact ⟨rfl, rfl⟩
    · exact runZipEntries_startsWith cfg.cwd cfg.destDir _ _ cfg.chmodOk entries {} rfl rfl
  · intro cwd destDir strip limits entries
    simp only [extractTar]
    exact runTarEntries_startsWith cwd destDir _ _ entries {} rfl

/-- Witness for C2 at a concrete contained entry. -/
theorem C2_witness :
    str "/dest/b" = posixResolve (str "/") [str "/dest", str "b"] ∧
    startsWith (str "/dest/b") (resolveSafeBaseDir (str "/") (str "/dest")) = true :=
  C2_path_containment.1 (str "/") (str "/dest") (str "b") (str "b") (str "/dest/b") (by decide)

/-- Helper: path validation never raises DisallowedEntryType. -/
theorem validate_ne_disallowed (p s : JSString) :
    validateArchiveEntryPath p ≠ .error (.disallowedEntryType s) := by
  simp only [validateArchiveEntryPath]
  split_ifs <;> simp

/-- Helper: the containment check never raises DisallowedEntryType. -/
theorem resolve_ne_disallowed (cwd destDir relPath original s : JSString) :
    resolveCheckedOutPath cwd destDir relPath original ≠
      .error (.disallowedEntryType s) := by
  simp only [resolveCheckedOutPath]
  split_ifs <;> simp

/-- Helper: the byte-budget stream never raises DisallowedEntryType. -/
theorem stream_ne_disallowed (limits : ResolvedExtractLimits) :
    ∀ (chunks : List Nat) (eb ex : Int) (s : JSString),
      streamEntryChunks limits chunks eb ex ≠ .error (.disallowedEntryType s)
  | [], eb, ex, s => by simp [streamEntryChunks]
  | c :: rest, eb, ex, s => by
    simp only [streamEntryChunks]
    split_ifs with h1 h2
    · simp
    · simp
    · exact stream_ne_disallowed limits rest _ _ s

/-- Helper: the zip entry pipeline never raises DisallowedEntryType. -/
theorem processZipEntry_ne_disallowed (cwd destDir : JSString) (strip : Int)
    (limits : ResolvedExtractLimits) (chmodOk : JSString → Bool)
    (st : ZipState) (e : ZipEntry) (s : JSString) :
    processZipEntry cwd destDir strip limits chmodOk st e ≠
      .error (.disallowedEntryType s) := by
  unfold processZipEntry
  cases hv : validateArchiveEntryPath e.name with
  | error err =>
    simp only [hv]
    intro h
    injection h with h2
    exact validate_ne_disallowed e.name s (h2 ▸ hv)
  | ok u =>
    simp only [hv]
    cases hs : stripArchivePath e.name strip with
    | none => simp only [hs]; simp
    | some relPath =>
      simp only [hs]
      cases hv2 : validateArchiveEntryPath relPath with
      | error err =>
        simp only [hv2]
        intro h
        injection h with h2
        exact validate_ne_disallowed relPath s (h2 ▸ hv2)
      | ok u2 =>
        simp only [hv2]
        cases hro : resolveCheckedOutPath cwd destDir relPath e.name with
        | error err =>
          simp only [hro]
          intro h
          injection h with h2
          exact resolve_ne_disallowed cwd destDir relPath e.name s (h2 ▸ hro)
        | ok outPath =>
          simp only [hro]
          by_cases hdir : e.dir = true
          · simp [hdir]
          · rw [if_neg hdir]
            cases hst : streamEntryChunks limits e.chunks 0 st.extractedBytes with
            | error err =>
              simp only [hst]
              intro h
              injection h with h2
              exact stream_ne_disallowed limits e.chunks 0 st.extractedBytes s (h2 ▸ hst)
            | ok extracted =>
              simp only [hst]
              cases hperm : e.unixPermissions with
              | none => simp
              | some p =>
                simp only [hperm]
                split_ifs <;> simp

/-- Helper: the zip entry loop never fails with DisallowedEntryType. -/
theorem runZipEntries_ne_disallowed (cwd destDir : JSString) (strip : Int)
    (limits : ResolvedExtractLimits) (chmodOk : JSString → Bool) :
    ∀ (entries : List ZipEntry) (st : ZipState) (s : JSString),
      (runZipEntries cwd destDir strip limits chmodOk entries st).2 ≠
        some (.disallowedEntryType s)
  | [], st, s => by simp [runZipEntries]
  | e :: rest, st, s => by
    unfold runZipEntries
    cases hp : processZipEntry cwd destDir strip limits chmodOk st e with
    | error err =>
      intro h
      injection h with h2
      exact processZipEntry_ne_disallowed cwd destDir strip limits chmodOk st e s (h2 ▸ hp)
    | ok st2 =>
      exact runZipEntries_ne_disallowed cwd destDir strip limits chmodOk rest st2 s

/-- Counterexample to C3 as stated: a zip entry whose stored unix attributes
declare it a symbolic link (unixPermissions 0o120777 = 41471, type nibble
S_IFLNK) is not rejected by the zip extractor: extraction succeeds, the
entry's data is written as a regular file, and its permission bits are even
restored. -/
theorem C3_counterexample :
    zipEntryDeclaredSymlink
      { name := str "link", dir := false, unixPermissions := some 41471, chunks := [4] } = true ∧
    extractZip { cwd := str "/", destDir := str "/dest" }
      [{ name := str "link", dir := false, unixPermissions := some 41471, chunks := [4] }] =
      ({ extractedBytes := 4, files := [(str "/dest/link", 4)], dirs := [],
         chmodCalls := [(str "/dest/link", 511)], modes := [(str "/dest/link", 511)] },
       none) :=
  ⟨by decide, by decide⟩

/-- C3 (amended): the tar extractor rejects every entry declared
SymbolicLink, Link, BlockDevice, CharacterDevice, FIFO or Socket with the
DisallowedEntryType error, even when its raw path, stripped path and resolved
output path all pass the checks, and any such error aborts the run with the
entry unmaterialized and later entries unprocessed; the zip extractor never
inspects declared types: it materializes entries only as regular files or
directories and never fails with DisallowedEntryType. -/
theorem C3_amended :
    (∀ cwd destDir strip limits st (e : TarEntry) relPath outPath,
      e.entryType ∈ disallowedTarEntryTypes →
      validateArchiveEntryPath e.path = .ok () →
      stripArchivePath e.path strip = some relPath →
      validateArchiveEntryPath relPath = .ok () →
      resolveCheckedOutPath cwd destDir relPath e.path = .ok outPath →
      tarProcessEntry cwd destDir strip limits st e =
        .error (.disallowedEntryType e.path)) ∧
    (∀ cwd destDir strip limits st e err rest,
      tarProcessEntry cwd destDir strip limits st e = .error err →
      runTarEntries cwd destDir strip limits (e :: rest) st = (st, some err)) ∧
    (∀ cfg entries s,
      (extractZip cfg entries).2 ≠ some (.disallowedEntryType s)) := by
  refine ⟨?_, ?_, ?_⟩
  · intro cwd destDir strip limits st e relPath outPath htype hv hs hv2 hro
    unfold tarProcessEntry
    simp only [hv, hs, hv2, hro, if_pos htype]
  · intro cwd destDir strip limits st e err rest h
    unfold runTarEntries
    simp only [h]
  · intro cfg entries s
    simp only [extractZip]
    split_ifs
    · simp
    · simp
    · exact runZipEntries_ne_disallowed cfg.cwd cfg.destDir _ _ cfg.chmodOk entries {} s

/-- Witness for C3 (amended) at a concrete symlink tar entry. -/
theorem C3_amended_witness :
    tarProcessEntry (str "/") (str "/dest") 0 (resolveExtractLimits none) {}
      { path := str "s", entryType := str "SymbolicLink" } =
      .error (.disallowedEntryType (str "s")) :=
  C3_amended.1 (str "/") (str "/dest") 0 (resolveExtractLimits none) {}
    { path := str "s", entryType := str "SymbolicLink" } (str "s") (str "/dest/s")
    (by decide) (by decide) (by decide) (by decide) (by decide)

/-- Helper: states with equal erasures agree on every field but the applied
chmods. -/
theorem eraseModes_fields (st1 st2 : ZipState) (h : eraseModes st1 = eraseModes st2) :
    st1.extractedBytes = st2.extractedBytes ∧ st1.files = st2.files ∧
    st1.dirs = st2.dirs ∧ st1.chmodCalls = st2.chmodCalls := by
  cases st1
  cases st2
  simp only [eraseModes, ZipState.mk.injEq] at h
  exact ⟨h.1, h.2.1, h.2.2.1, h.2.2.2.1⟩

/-- Helper: up to the applied-chmod record, processing a zip entry does not
depend on which chmods succeed. -/
theorem processZipEntry_eraseModes (cwd destDir : JSString) (strip : Int)
    (limits : ResolvedExtractLimits) (ok1 ok2 : JSString → Bool)
    (st1 st2 : ZipState) (e : ZipEntry) (h : eraseModes st1 = eraseModes st2) :
    (processZipEntry cwd destDir strip limits ok1 st1 e).map eraseModes =
    (processZipEntry cwd destDir strip limits ok2 st2 e).map eraseModes := by
  obtain ⟨hx, hfe, hde, hce⟩ := eraseModes_fields st1 st2 h
  unfold processZipEntry
  cases hv : validateArchiveEntryPath e.name with
  | error err => simp [hv]
  | ok u =>
    simp only [hv]
    cases hs : stripArchivePath e.name strip with
    | none =>
      simp only [hs]
      simpa [Except.map] using h
    | some relPath =>
      simp only [hs]
      cases hv2 : validateArchiveEntryPath relPath with
      | error err => simp [hv2]
      | ok u2 =>
        simp only [hv2]
        cases hro : resolveCheckedOutPath cwd destDir relPath e.name with
        | error err => simp [hro]
        | ok outPath =>
          simp only [hro]
          by_cases hdir : e.dir = true
          · simp [if_pos hdir, Except.map, eraseModes, hx, hfe, hde, hce]
          · simp only [if_neg hdir]
            rw [hx]
            cases hst : streamEntryChunks limits e.chunks 0 st2.extractedBytes with
            | error err => simp [hst]
            | ok extracted =>
              simp only [hst]
              cases hperm : e.unixPermissions with
              | none => simp [Except.map, eraseModes, hx, hfe, hde, hce]
              | some p =>
                simp only [hperm]
                by_cases hm : maskUnixMode p = 0
                · simp [if_pos hm, Except.map, eraseModes, hx, hfe, hde, hce]
                · simp only [if_neg hm]
                  by_cases h1 : ok1 outPath = true <;> by_cases h2 : ok2 outPath = true <;>
                    simp [h1, h2, Except.map, eraseModes, hx, hfe, hde, hce]

/-- Helper: up to the applied-chmod record, the zip entry loop does not
depend on which chmods succeed. -/
theorem runZipEntries_eraseModes (cwd destDir : JSString) (strip : Int)
    (limits : ResolvedExtractLimits) (ok1 ok2 : JSString → Bool) :
    ∀ (entries : List ZipEntry) (st1 st2 : ZipState), eraseModes st1 = eraseModes st2 →
      eraseModes (runZipEntries cwd destDir strip limits ok1 entries st1).1 =
        eraseModes (runZipEntries cwd destDir strip limits ok2 entries st2).1 ∧
      (runZipEntries cwd destDir strip limits ok1 entries st1).2 =
        (runZipEntries cwd destDir strip limits ok2 entries st2).2
  | [], st1, st2, h => ⟨h, rfl⟩
  | e :: rest, st1, st2, h => by
    have hmap := processZipEntry_eraseModes cwd destDir strip limits ok1 ok2 st1 st2 e h
    unfold runZipEntries
    cases hp1 : processZipEntry cwd destDir strip limits ok1 st1 e with
    | error err1 =>
      cases hp2 : processZipEntry cwd destDir strip limits ok2 st2 e with
      | error err2 =>
        rw [hp1, hp2] at hmap
        simp only [Except.map] at hmap
        injection hmap with h2
        subst h2
        exact ⟨h, rfl⟩
      | ok st2b =>
        rw [hp1, hp2] at hmap
        simp [Except.map] at hmap
    | ok st1b =>
      cases hp2 : processZipEntry cwd destDir strip limits ok2 st2 e with
      | error err2 =>
        rw [hp1, hp2] at hmap
        simp [Except.map] at hmap
      | ok st2b =>
        rw [hp1, hp2] at hmap
        simp only [Except.map] at hmap
        injection hmap with h2
        exact runZipEntries_eraseModes cwd destDir strip limits ok1 ok2 rest st1b st2b h2

/-- C10: for a written zip file entry whose unixPermissions is absent or
whose low 9 bits are zero, no chmod is attempted and the applied-mode record
is unchanged, so the file keeps the mode given by the write; a chmod is
attempted only when the masked mode is non-zero; and the extraction outcome
(files written, chmod attempts, and success or error) is identical whichever
chmods fail. -/
theorem C10_chmod_best_effort :
    (∀ cwd destDir strip limits chmodOk st e st2,
      e.dir = false →
      (e.unixPermissions = none ∨ ∃ p, e.unixPermissions = some p ∧ maskUnixMode p = 0) →
      processZipEntry cwd destDir strip limits chmodOk st e = .ok st2 →
      st2.chmodCalls = st.chmodCalls ∧ st2.modes = st.modes) ∧
    (∀ cwd destDir strip limits chmodOk st e st2,
      processZipEntry cwd destDir strip limits chmodOk st e = .ok st2 →
      st2.chmodCalls = st.chmodCalls ∨
        ∃ outPath p, e.unixPermissions = some p ∧ maskUnixMode p ≠ 0 ∧
          st2.chmodCalls = st.chmodCalls ++ [(outPath, maskUnixMode p)]) ∧
    (∀ cfg (o2 : JSString → Bool) entries,
      (extractZip { cfg with chmodOk := o2 } entries).1.files =
        (extractZip cfg entries).1.files ∧
      (extractZip { cfg with chmodOk := o2 } entries).1.chmodCalls =
        (extractZip cfg entries).1.chmodCalls ∧
      (extractZip { cfg with chmodOk := o2 } entries).2 =
        (extractZip cfg entries).2) := by
  refine ⟨?_, ?_, ?_⟩
  · intro cwd destDir strip limits chmodOk st e st2 hdir hperm h
    unfold processZipEntry at h
    cases hv : validateArchiveEntryPath e.name with
    | error err => simp only [hv] at h; exact Except.noConfusion h
    | ok u =>
      simp only [hv] at h
      cases hs : stripArchivePath e.name strip with
      | none =>
        simp only [hs] at h
        injection h with h2
        subst h2
        exact ⟨rfl, rfl⟩
      | some relPath =>
        simp only [hs] at h
        cases hv2 : validateArchiveEntryPath relPath with
        | error err => simp only [hv2] at h; exact Except.noConfusion h
        | ok u2 =>
          simp only [hv2] at h
          cases hro : resolveCheckedOutPath cwd destDir relPath e.name with
          | error err => simp only [hro] at h; exact Except.noConfusion h
          | ok outPath =>
            simp only [hro] at h
            rw [if_neg (by simp [hdir])] at h
            cases hst : streamEntryChunks limits e.chunks 0 st.extractedBytes with
            | error err => simp only [hst] at h; exact Except.noConfusion h
            | ok extracted =>
              simp only [hst] at h
              rcases hperm with hp0 | ⟨p, hp1, hp2⟩
              · simp only [hp0] at h
                injection h with h2
                subst h2
                exact ⟨rfl, rfl⟩
              · simp only [hp1] at h
                rw [if_pos hp2] at h
                injection h with h2
                subst h2
                exact ⟨rfl, rfl⟩
  · intro cwd destDir strip limits chmodOk st e st2 h
    unfold processZipEntry at h
    cases hv : validateArchiveEntryPath e.name with
    | error err => simp only [hv] at h; exact Except.noConfusion h
    | ok u =>
      simp only [hv] at h
      cases hs : stripArchivePath e.name strip with
      | none =>
        simp only [hs] at h
        injection h with h2
        subst h2
        exact Or.inl rfl
      | some relPath =>
        simp only [hs] at h
        cases hv2 : validateArchiveEntryPath relPath with
        | error err => simp only [hv2] at h; exact Except.noConfusion h
        | ok u2 =>
          simp only [hv2] at h
          cases hro : resolveCheckedOutPath cwd destDir relPath e.name with
          | error err => simp only [hro] at h; exact Except.noConfusion h
          | ok outPath =>
            simp only [hro] at h
            by_cases hdir : e.dir = true
            · rw [if_pos hdir] at h
              injection h with h2
              subst h2
              exact Or.inl rfl
            · rw [if_neg hdir] at h
              cases hst : streamEntryChunks limits e.chunks 0 st.extractedBytes with
              | error err => simp only [hst] at h; exact Except.noConfusion h
              | ok extracted =>
                simp only [hst] at h
                cases hperm : e.unixPermissions with
                | none =>
                  simp only [hperm] at h
                  injection h with h2
                  subst h2
                  exact Or.inl rfl
                | some p =>
                  simp only [hperm] at h
                  by_cases hm : maskUnixMode p = 0
                  · rw [if_pos hm] at h
                    injection h with h2
                    subst h2
                    exact Or.inl rfl
                  · rw [if_neg hm] at h
                    by_cases hok : chmodOk outPath = true
                    · rw [if_pos hok] at h
                      injection h with h2
                      subst h2
                      exact Or.inr ⟨outPath, p, rfl, hm, rfl⟩
                    · rw [if_neg hok] at h
                      injection h with h2
                      subst h2
                      exact Or.inr ⟨outPath, p, rfl, hm, rfl⟩
  · intro cfg o2 entries
    have h := runZipEntries_eraseModes cfg.cwd cfg.destDir (max 0 cfg.stripComponents)
      (resolveExtractLimits cfg.limits) o2 cfg.chmodOk entries {} {} rfl
    simp only [extractZip]
    split_ifs
    · exact ⟨rfl, rfl, rfl⟩
    · exact ⟨rfl, rfl, rfl⟩
    · obtain ⟨_, hf, _, hc⟩ := eraseModes_fields _ _ h.1
      exact ⟨hf, hc, h.2⟩

/-- Witness for C10 at a concrete entry with unixPermissions 512 (masked
mode 0): no chmod is attempted. -/
theorem C10_witness :
    ∃ st2,
      processZipEntry (str "/") (str "/dest") 0 (resolveExtractLimits none)
        (fun _ => true) {}
        { name := str "f", dir := false, unixPermissions := some 512, chunks := [1] } =
        .ok st2 ∧
      st2.chmodCalls = [] ∧ st2.modes = [] := by
  refine ⟨{ extractedBytes := 1, files := [(str "/dest/f", 1)], dirs := [],
            chmodCalls := [], modes := [] }, by decide, ?_⟩
  exact C10_chmod_best_effort.1 (str "/") (str "/dest") 0 (resolveExtractLimits none)
    (fun _ => true) {}
    { name := str "f", dir := false, unixPermissions := some 512, chunks := [1] } _
    rfl (Or.inr ⟨512, rfl, by decide⟩) (by decide)

end Archive
